import Mathlib

/-!
Verification of the `money` package (core.py and ifx.py): a shallow
embedding of the Money value type, its rounding engine and distribution
algorithms, the signed-transaction lifecycle, the qualification gate and
the hash-chained ledger, together with theorems settling the spec claims.

Conventions of the embedding:
* Python `int` becomes `Int`; real-valued intermediate quantities
  (rates, weights, confidences — `float` in the source) become `Rat`.
* Code that raises becomes `Except String`; the error strings follow the
  source messages (float formatting inside messages is abstracted to
  `toString`).
* The SHA-256 digests of `ifx.py` are modelled as parameters
  `hashFn : EntryContent Hash → Hash` (ledger) and
  `sigHash : SignContent → String` (transaction signature); claims that
  need collision-freedom take `Function.Injective hashFn` as hypothesis.
* UUIDs and wall-clock timestamps are passed in as explicit arguments.
-/

namespace MoneyCore

/-- Supported currencies, ISO 4217 subset (core.py `Currency`). -/
inductive Currency where
  | EUR
  | USD
  | GBP
  | JPY
  | KWD
  | BTC
deriving DecidableEq, Repr

/-- Alphabetic currency code (core.py `Currency.code`). -/
def Currency.code : Currency → String
  | .EUR => "EUR"
  | .USD => "USD"
  | .GBP => "GBP"
  | .JPY => "JPY"
  | .KWD => "KWD"
  | .BTC => "BTC"

/-- Number of decimals of the minor unit (core.py `Currency.decimals`). -/
def Currency.decimals : Currency → Nat
  | .EUR => 2
  | .USD => 2
  | .GBP => 2
  | .JPY => 0
  | .KWD => 3
  | .BTC => 8

/-- Conversion factor major → minor units (core.py `Currency.multiplier`). -/
def Currency.multiplier (c : Currency) : Nat := 10 ^ c.decimals

/-- Rounding strategies (core.py `RoundingMode`). -/
inductive RoundingMode where
  | HALF_UP
  | HALF_EVEN
  | DOWN
  | UP
  | HALF_DOWN
deriving DecidableEq, Repr

/-- Python `int(v)`: truncation toward zero. -/
def pyInt (v : ℚ) : ℤ := if 0 ≤ v then ⌊v⌋ else ⌈v⌉

/-- Python `round(v)`: round half to even (banker's rounding). -/
def pyRound (v : ℚ) : ℤ :=
  let f := ⌊v⌋
  let r := v - f
  if r < 1 / 2 then f
  else if 1 / 2 < r then f + 1
  else if Even f then f else f + 1

/-- core.py `_apply_rounding`: dispatch on the rounding mode.  Each arm
mirrors the corresponding inner function of the source (`_half_up` is
`math.floor(v + 0.5)`, `_down` is `int(v) if v >= 0 else math.ceil(v)`,
`_up` is `math.ceil(v) if v >= 0 else int(v)`, and `_half_down` is
`math.ceil(v - 0.5) if v >= 0 else math.floor(v + 0.5)`). -/
def apply_rounding (value : ℚ) (mode : RoundingMode) : ℤ :=
  match mode with
  | .HALF_UP => ⌊value + 1 / 2⌋
  | .HALF_EVEN => pyRound value
  | .DOWN => if 0 ≤ value then pyInt value else ⌈value⌉
  | .UP => if 0 ≤ value then ⌈value⌉ else pyInt value
  | .HALF_DOWN => if 0 ≤ value then ⌈value - 1 / 2⌉ else ⌊value + 1 / 2⌋

/-- core.py `Money`: integer minor units plus a currency. -/
structure Money where
  minor_units : ℤ
  currency : Currency
deriving DecidableEq, Repr

/-- core.py `Money.of_minor`. -/
def Money.of_minor (minor_units : ℤ) (currency : Currency) : Money :=
  ⟨minor_units, currency⟩

/-- core.py `Money.of`: constructor from major units. -/
def Money.of (major_units : ℤ) (currency : Currency) : Money :=
  ⟨major_units * currency.multiplier, currency⟩

/-- core.py `Money.zero`. -/
def Money.zero (currency : Currency) : Money := ⟨0, currency⟩

/-- core.py `Money.MAX_DISTRIBUTION_PARTS`. -/
def MAX_DISTRIBUTION_PARTS : Nat := 10000

/-- core.py `Money.distribute`: Largest Remainder Method.  Python `//`
and `%` are floor division and its remainder, hence `Int.fdiv` and
`Int.fmod`. -/
def Money.distribute (m : Money) (n : ℤ) : Except String (List Money) :=
  if n ≤ 0 then
    .error ("n deve essere > 0, ricevuto: " ++ toString n)
  else if (MAX_DISTRIBUTION_PARTS : ℤ) < n then
    .error "n supera il limite di 10000"
  else
    let base := m.minor_units.fdiv n
    let remainder := m.minor_units.fmod n
    .ok ((List.range n.toNat).map
      (fun i : ℕ =>
        Money.of_minor (base + if (i : ℤ) < remainder then 1 else 0) m.currency))

/-- core.py `Money.distribute_weighted`: proportional split, rounded
per-part, residual added to the part with the largest weight
(`weights.index(max(weights))` is the first index of the maximum). -/
def Money.distribute_weighted (m : Money) (weights : List ℚ) (rounding : RoundingMode) :
    Except String (List Money) :=
  if weights.isEmpty then .error "weights non può essere vuoto"
  else if MAX_DISTRIBUTION_PARTS < weights.length then
    .error "weights supera il limite di 10000"
  else if weights.any (fun w => w < 0) then
    .error "weights non può contenere valori negativi"
  else
    let total_weight := weights.sum
    if total_weight = 0 then .error "somma dei weights non può essere 0"
    else
      let proportions := weights.map (fun w => w / total_weight)
      let raw_amounts := proportions.map (fun p => (m.minor_units : ℚ) * p)
      let rounded := raw_amounts.map (fun a => apply_rounding a rounding)
      let diff := m.minor_units - rounded.sum
      let result :=
        if diff ≠ 0 then
          let max_idx := weights.indexOf ((weights.max?).getD 0)
          rounded.set max_idx (rounded.getD max_idx 0 + diff)
        else rounded
      .ok (result.map (fun r => Money.of_minor r m.currency))

/-- core.py `Money.add_vat`: returns `(net, vat, gross)` with the gross
obtained by integer addition. -/
def Money.add_vat (m : Money) (rate_percent : ℚ) (rounding : RoundingMode) :
    Money × Money × Money :=
  let rate_decimal := rate_percent / 100
  let vat_float := (m.minor_units : ℚ) * rate_decimal
  let vat_minor := apply_rounding vat_float rounding
  (m, Money.of_minor vat_minor m.currency,
    Money.of_minor (m.minor_units + vat_minor) m.currency)

/-- core.py `Money.extract_vat`: `self` is the gross; the vat is the
integer difference `gross − net`. -/
def Money.extract_vat (m : Money) (rate_percent : ℚ) (rounding : RoundingMode) :
    Money × Money × Money :=
  let rate_decimal := rate_percent / 100
  let net_float := (m.minor_units : ℚ) / (1 + rate_decimal)
  let net_minor := apply_rounding net_float rounding
  let vat_minor := m.minor_units - net_minor
  (Money.of_minor net_minor m.currency, Money.of_minor vat_minor m.currency, m)

/-- core.py `Money.apply_discount`: `(discount, discounted)` with the
discounted amount the integer difference. -/
def Money.apply_discount (m : Money) (percent : ℚ) (rounding : RoundingMode) :
    Money × Money :=
  let discount_float := (m.minor_units : ℚ) * (percent / 100)
  let discount_minor := apply_rounding discount_float rounding
  (Money.of_minor discount_minor m.currency,
    Money.of_minor (m.minor_units - discount_minor) m.currency)

/-- core.py `Money.__add__` (between two Money values; the non-Money
operand branch is excluded by typing). -/
def Money.add (a b : Money) : Except String Money :=
  if a.currency ≠ b.currency then
    .error ("Valute diverse: " ++ a.currency.code ++ " + " ++ b.currency.code ++
      ". Converti esplicitamente prima di sommare.")
  else .ok (Money.of_minor (a.minor_units + b.minor_units) a.currency)

/-- core.py `Money.__eq__` between two Money values: a plain boolean,
false when either field differs. -/
def Money.eq (a b : Money) : Bool :=
  a.minor_units == b.minor_units && a.currency == b.currency

/-- core.py `Money._check_same_currency`: raises on currency mismatch. -/
def Money.check_same_currency (a b : Money) : Except String Unit :=
  if a.currency ≠ b.currency then
    .error ("Impossibile comparare valute diverse: " ++ a.currency.code ++
      " vs " ++ b.currency.code)
  else .ok ()

/-- core.py `Money.__lt__`. -/
def Money.lt (a b : Money) : Except String Bool :=
  match Money.check_same_currency a b with
  | .error e => .error e
  | .ok _ => .ok (decide (a.minor_units < b.minor_units))

/-- core.py `Money.__le__`. -/
def Money.le (a b : Money) : Except String Bool :=
  match Money.check_same_currency a b with
  | .error e => .error e
  | .ok _ => .ok (decide (a.minor_units ≤ b.minor_units))

/-- core.py `Money.__gt__`. -/
def Money.gt (a b : Money) : Except String Bool :=
  match Money.check_same_currency a b with
  | .error e => .error e
  | .ok _ => .ok (decide (b.minor_units < a.minor_units))

/-- core.py `Money.__ge__`. -/
def Money.ge (a b : Money) : Except String Bool :=
  match Money.check_same_currency a b with
  | .error e => .error e
  | .ok _ => .ok (decide (b.minor_units ≤ a.minor_units))

end MoneyCore

namespace MoneyIfx

open MoneyCore

/-- ifx.py `EpistemicStatus`. -/
inductive EpistemicStatus where
  | FACT
  | INFERENCE
  | ASSUMPTION
  | AI_GENERATED
deriving DecidableEq, Repr

/-- ifx.py `TransactionMetadata`.  Timestamps are opaque ISO strings in
this embedding. -/
structure TransactionMetadata where
  source : String
  confidence : ℚ
  timestamp : String
  rationale : Option String
  epistemic_status : EpistemicStatus
  policy_version : String
  session_id : String
  parent_tx_id : Option String
deriving DecidableEq, Repr

/-- ifx.py `SignedTransaction`.  The status is the raw string field of
the source ("pending", "admitted", "rejected", "executed"). -/
structure SignedTransaction where
  tx_id : String
  amount : Money
  metadata : TransactionMetadata
  signature : Option String
  status : String
  rejection_reason : Option String
deriving DecidableEq, Repr

/-- The content covered by `SignedTransaction.sign`: exactly
`{tx_id, amount, metadata}` — neither status nor rejection reason. -/
structure SignContent where
  tx_id : String
  amount : Money
  metadata : TransactionMetadata
deriving DecidableEq, Repr

/-- The signed content of a transaction (the dict serialized in
ifx.py `sign`/`verify_signature`). -/
def SignedTransaction.signContent (tx : SignedTransaction) : SignContent :=
  ⟨tx.tx_id, tx.amount, tx.metadata⟩

/-- ifx.py `SignedTransaction.sign`: attach the digest of the canonical
content. `sigHash` stands for SHA-256 over the canonical JSON. -/
def SignedTransaction.sign (sigHash : SignContent → String)
    (tx : SignedTransaction) : SignedTransaction :=
  { tx with signature := some (sigHash tx.signContent) }

/-- ifx.py `SignedTransaction.verify_signature`: recompute the digest and
compare with the stored one; false when unsigned. -/
def SignedTransaction.verify_signature (sigHash : SignContent → String)
    (tx : SignedTransaction) : Bool :=
  match tx.signature with
  | none => false
  | some s => s == sigHash tx.signContent

/-- The `admit` method of ifx.py SignedTransaction: unconditionally sets
the status to "admitted" (the source performs no status check here). -/
def SignedTransaction.mark_admitted (tx : SignedTransaction) : SignedTransaction :=
  { tx with status := "admitted", rejection_reason := none }

/-- ifx.py `SignedTransaction.reject`: unconditionally sets the status to
"rejected" with the given reason (no status check in the source). -/
def SignedTransaction.reject (tx : SignedTransaction) (reason : String) :
    SignedTransaction :=
  { tx with status := "rejected", rejection_reason := some reason }

/-- ifx.py `SignedTransaction.execute`: only an admitted transaction may
be executed; otherwise a ValueError is raised. -/
def SignedTransaction.execute (tx : SignedTransaction) :
    Except String SignedTransaction :=
  if tx.status ≠ "admitted" then
    .error ("Cannot execute transaction in status '" ++ tx.status ++ "'")
  else
    .ok { tx with status := "executed", rejection_reason := none }

/-- A lifecycle operation applied to a transaction; a failing `execute`
leaves the value unchanged (the Python exception aborts the rebind, so
the previous immutable value is what remains). -/
inductive TransitionOp where
  | admitOp
  | rejectOp (reason : String)
  | executeOp
deriving DecidableEq, Repr

/-- Apply one lifecycle operation. -/
def applyOp (tx : SignedTransaction) : TransitionOp → SignedTransaction
  | .admitOp => tx.mark_admitted
  | .rejectOp reason => tx.reject reason
  | .executeOp =>
      match tx.execute with
      | .ok tx2 => tx2
      | .error _ => tx

/-- Apply a sequence of lifecycle operations in order. -/
def applyOps (tx : SignedTransaction) (ops : List TransitionOp) : SignedTransaction :=
  ops.foldl applyOp tx

/-- ifx.py `QualificationPolicy`. -/
structure QualificationPolicy where
  min_confidence : ℚ
  max_amount : Option Money
  require_human_approval_above : Option Money
  allowed_sources : Option (List String)
  blocked_sources : Option (List String)
  version : String
  name : String
deriving Repr

/-- ifx.py `GateDecision`. -/
structure GateDecision where
  admitted : Bool
  reason : String
  policy_version : String
  checks_passed : List String
  checks_failed : List String
  requires_human_approval : Bool
deriving DecidableEq, Repr

/-- ifx.py `Gate._check_confidence` (the `:.2f` float formatting of the
message is abstracted to `toString`). -/
def check_confidence (policy : QualificationPolicy) (tx : SignedTransaction) :
    List String × List String :=
  let conf := tx.metadata.confidence
  let min_conf := policy.min_confidence
  if min_conf ≤ conf then
    (["confidence_check: " ++ toString conf ++ " >= " ++ toString min_conf], [])
  else
    ([], ["confidence_check: " ++ toString conf ++ " < " ++ toString min_conf ++ " (required)"])

/-- ifx.py `Gate._check_amount`: the currency guard runs before the
comparison, so the `Money.__le__` call on the `elif` branch never raises
and is the plain minor-units comparison. -/
def check_amount (policy : QualificationPolicy) (tx : SignedTransaction) :
    List String × List String :=
  match policy.max_amount with
  | none => (["amount_check: no limit configured"], [])
  | some max_amt =>
    if tx.amount.currency ≠ max_amt.currency then
      ([], ["amount_check: currency mismatch (" ++ tx.amount.currency.code ++
        " vs " ++ max_amt.currency.code ++ ")"])
    else if tx.amount.minor_units ≤ max_amt.minor_units then
      (["amount_check: amount <= max"], [])
    else
      ([], ["amount_check: amount > max"])

/-- ifx.py `Gate._check_human_approval`: note that the source evaluates
`exceeds = tx.amount > threshold` unconditionally, before the
`same_currency` flag is consulted, so `Money.__gt__` raises on a
currency mismatch and the error escapes the check. -/
def check_human_approval (policy : QualificationPolicy) (tx : SignedTransaction) :
    Except String (List String × Bool) := do
  match policy.require_human_approval_above with
  | none => .ok (["human_approval_check: not configured"], false)
  | some threshold =>
    let same_currency := tx.amount.currency == threshold.currency
    let exceeds ← Money.gt tx.amount threshold
    if same_currency && exceeds then
      .ok (["human_approval_check: required"], true)
    else
      .ok (["human_approval_check: not required"], false)

/-- ifx.py `Gate._check_source`. -/
def check_source (policy : QualificationPolicy) (tx : SignedTransaction) :
    List String × List String :=
  let source := tx.metadata.source
  match policy.allowed_sources with
  | some allowed =>
    if allowed.contains source then
      (["source_check: '" ++ source ++ "' in allowed list"], [])
    else
      ([], ["source_check: '" ++ source ++ "' not in allowed list"])
  | none =>
    match policy.blocked_sources with
    | some blocked =>
      if blocked.contains source then
        ([], ["source_check: '" ++ source ++ "' is blocked"])
      else
        (["source_check: '" ++ source ++ "' not blocked"], [])
    | none => (["source_check: no restrictions"], [])

/-- ifx.py `Gate._run_custom_checks`, with the enumeration index carried
explicitly. -/
def run_custom_checks_from (tx : SignedTransaction) (i : Nat) :
    List (SignedTransaction → Option String) → List String × List String
  | [] => ([], [])
  | c :: rest =>
    let (p, f) := run_custom_checks_from tx (i + 1) rest
    match c tx with
    | none => (("custom_check_" ++ toString i ++ ": passed") :: p, f)
    | some r => (p, ("custom_check_" ++ toString i ++ ": " ++ r) :: f)

/-- ifx.py `Gate.evaluate`: run the checks in order, collect pass/fail
lists, admit iff nothing failed.  The human-approval check may raise
(see `check_human_approval`), in which case no decision is produced. -/
def evaluate (policy : QualificationPolicy)
    (customs : List (SignedTransaction → Option String))
    (tx : SignedTransaction) : Except String GateDecision := do
  let (p1, f1) := check_confidence policy tx
  let (p2, f2) := check_amount policy tx
  let (p3, requires_human) ← check_human_approval policy tx
  let (p4, f4) := check_source policy tx
  let (p5, f5) := run_custom_checks_from tx 0 customs
  let checks_passed := p1 ++ p2 ++ p3 ++ p4 ++ p5
  let checks_failed := f1 ++ f2 ++ f4 ++ f5
  let admitted := checks_failed.isEmpty
  let reason := if admitted then "All checks passed"
    else String.intercalate "; " checks_failed
  .ok { admitted := admitted, reason := reason, policy_version := policy.version,
        checks_passed := checks_passed, checks_failed := checks_failed,
        requires_human_approval := requires_human }

end MoneyIfx

namespace MoneyIfx

open MoneyCore

/-- The canonical content that ifx.py `Ledger` hashes for one entry:
`{sequence, timestamp, transaction, decision, previous_hash}`. -/
structure EntryContent (Hash : Type) where
  sequence : Nat
  timestamp : String
  transaction : SignedTransaction
  decision : Option GateDecision
  previous_hash : Hash
deriving DecidableEq, Repr

/-- ifx.py `LedgerEntry`. -/
structure LedgerEntry (Hash : Type) where
  sequence : Nat
  timestamp : String
  transaction : SignedTransaction
  decision : Option GateDecision
  previous_hash : Hash
  entry_hash : Hash
deriving DecidableEq, Repr

/-- The hashed content of a stored entry (everything but `entry_hash`). -/
def LedgerEntry.content {Hash : Type} (e : LedgerEntry Hash) : EntryContent Hash :=
  ⟨e.sequence, e.timestamp, e.transaction, e.decision, e.previous_hash⟩

/-- ifx.py `Ledger` state: the entry list, the genesis hash and the
capacity bound. -/
structure Ledger (Hash : Type) where
  entries : List (LedgerEntry Hash)
  genesis_hash : Hash
  max_entries : Nat
deriving Repr

/-- ifx.py `Ledger.append`: capacity check, previous hash from the last
entry (genesis when empty), entry hash over the canonical content.
`hashFn` stands for `_compute_hash` (SHA-256 of the canonical JSON). -/
def Ledger.append {Hash : Type} (hashFn : EntryContent Hash → Hash)
    (L : Ledger Hash) (timestamp : String) (transaction : SignedTransaction)
    (decision : Option GateDecision) :
    Except String (Ledger Hash × LedgerEntry Hash) :=
  if L.max_entries ≤ L.entries.length then
    .error "Ledger at max capacity"
  else
    let sequence := L.entries.length
    let previous_hash :=
      match L.entries.getLast? with
      | none => L.genesis_hash
      | some e => e.entry_hash
    let content : EntryContent Hash :=
      ⟨sequence, timestamp, transaction, decision, previous_hash⟩
    let entry : LedgerEntry Hash :=
      ⟨sequence, timestamp, transaction, decision, previous_hash, hashFn content⟩
    .ok ({ L with entries := L.entries ++ [entry] }, entry)

/-- The loop body of ifx.py `Ledger.verify_chain`: walk the entries with
the running index and the expected previous hash (the previous entry's
stored `entry_hash`, the genesis hash at index 0), failing at the first
entry whose stored previous hash or recomputed entry hash mismatches. -/
def verifyFrom {Hash : Type} [DecidableEq Hash] (hashFn : EntryContent Hash → Hash)
    (prev : Hash) (i : Nat) : List (LedgerEntry Hash) → Bool × Option Nat
  | [] => (true, none)
  | e :: rest =>
    if e.previous_hash ≠ prev then (false, some i)
    else if e.entry_hash ≠ hashFn e.content then (false, some i)
    else verifyFrom hashFn e.entry_hash (i + 1) rest

/-- ifx.py `Ledger.verify_chain`. -/
def Ledger.verify_chain {Hash : Type} [DecidableEq Hash]
    (hashFn : EntryContent Hash → Hash) (L : Ledger Hash) : Bool × Option Nat :=
  verifyFrom hashFn L.genesis_hash 0 L.entries

/-- A sequence of ifx.py `Ledger.append` calls, left to right; each input
is `(timestamp, transaction, decision)`. -/
def appendMany {Hash : Type} (hashFn : EntryContent Hash → Hash) (L : Ledger Hash) :
    List (String × SignedTransaction × Option GateDecision) →
    Except String (Ledger Hash)
  | [] => .ok L
  | (ts, tx, d) :: rest => do
    let (L2, _) ← L.append hashFn ts tx d
    appendMany hashFn L2 rest

/-- The hash a new entry must chain from: the last entry's stored
`entry_hash`, or the given hash when the list is empty (the genesis hash
in `Ledger.append`). -/
def lastHash {Hash : Type} (prev : Hash) (l : List (LedgerEntry Hash)) : Hash :=
  match l.getLast? with
  | none => prev
  | some e => e.entry_hash

/-- The well-chained predicate: each entry carries the expected previous
hash and a correctly recomputed entry hash. -/
def chainOk {Hash : Type} (hashFn : EntryContent Hash → Hash) (prev : Hash) :
    List (LedgerEntry Hash) → Prop
  | [] => True
  | e :: rest =>
    e.previous_hash = prev ∧ e.entry_hash = hashFn e.content ∧
      chainOk hashFn e.entry_hash rest

/-- An in-place mutation of one stored entry, in the sense of the spec's
tamper scenario: the replacement differs from the original in its hashed
content (with both stored hashes kept), in its stored `previous_hash`,
or in its stored `entry_hash` (with everything else kept). -/
def Tampered {Hash : Type} (e e2 : LedgerEntry Hash) : Prop :=
  (e2.content ≠ e.content ∧ e2.previous_hash = e.previous_hash ∧
      e2.entry_hash = e.entry_hash)
  ∨ e2.previous_hash ≠ e.previous_hash
  ∨ (e2.entry_hash ≠ e.entry_hash ∧ e2.previous_hash = e.previous_hash ∧
      e2.content = e.content)

/-- ifx.py `SignedTransaction.from_ai_output` after its confidence
validation: the freshly built pending transaction (uuid and timestamp
passed in explicitly). -/
def mk_ai_tx (tx_id session_id timestamp : String) (amount : Money)
    (source : String) (confidence : ℚ) (rationale : Option String)
    (policy_version : String) : SignedTransaction :=
  { tx_id := tx_id
    amount := amount
    metadata :=
      { source := source
        confidence := confidence
        timestamp := timestamp
        rationale := rationale
        epistemic_status := .AI_GENERATED
        policy_version := policy_version
        session_id := session_id
        parent_tx_id := none }
    signature := none
    status := "pending"
    rejection_reason := none }

/-- ifx.py `SignedTransaction.from_ai_output` including the confidence
range validation. -/
def from_ai_output (tx_id session_id timestamp : String) (amount : Money)
    (source : String) (confidence : ℚ) (rationale : Option String)
    (policy_version : String) : Except String SignedTransaction :=
  if ¬(0 ≤ confidence ∧ confidence ≤ 1) then
    .error ("Confidence must be 0.0-1.0, got " ++ toString confidence)
  else
    .ok (mk_ai_tx tx_id session_id timestamp amount source confidence rationale
      policy_version)

/-- ifx.py `qualify_and_execute`: build → sign → evaluate → (append,
execute-or-reject | reject, append).  The execute callback is
`on_execute : Money → Except String Unit`; invocations of the reject
callback are returned as the final list of strings (its argument per
call, in order).  Returns `(success, transaction, decision, ledger,
reject-callback calls)`. -/
def qualify_and_execute {Hash : Type} (hashFn : EntryContent Hash → Hash)
    (sigHash : SignContent → String) (tx_id session_id timestamp : String)
    (amount : Money) (source : String) (confidence : ℚ)
    (rationale : Option String) (policy : QualificationPolicy)
    (customs : List (SignedTransaction → Option String)) (ledger : Ledger Hash)
    (on_execute : Money → Except String Unit) :
    Except String (Bool × SignedTransaction × GateDecision × Ledger Hash × List String) := do
  let tx0 ← from_ai_output tx_id session_id timestamp amount source confidence
    rationale policy.version
  let tx := tx0.sign sigHash
  let decision ← evaluate policy customs tx
  if decision.admitted then
    let txA := tx.mark_admitted
    let (ledger2, _) ← ledger.append hashFn timestamp txA (some decision)
    match on_execute txA.amount with
    | .ok _ =>
      match txA.execute with
      | .ok txE => .ok (true, txE, decision, ledger2, [])
      | .error e => .ok (true, txA.reject ("Execution failed: " ++ e), decision, ledger2, [e])
    | .error e => .ok (true, txA.reject ("Execution failed: " ++ e), decision, ledger2, [e])
  else
    let txR := tx.reject decision.reason
    let (ledger2, _) ← ledger.append hashFn timestamp txR (some decision)
    .ok (false, txR, decision, ledger2, [decision.reason])

end MoneyIfx

namespace MoneyIfx

open MoneyCore

/-- A concrete hash-value type used to instantiate the abstract ledger
digest in concrete runs: a constructor tree mirroring the hashed content,
so that the induced hash function is trivially injective. -/
inductive HashT where
  | genesis
  | node (sequence : Nat) (timestamp : String) (transaction : SignedTransaction)
      (decision : Option GateDecision) (previous_hash : HashT)
deriving DecidableEq, Repr

/-- The injective instantiation of the ledger's `_compute_hash`. -/
def hashFnT (c : EntryContent HashT) : HashT :=
  .node c.sequence c.timestamp c.transaction c.decision c.previous_hash

/-- A concrete transaction metadata record for concrete runs. -/
def mdSample : TransactionMetadata :=
  { source := "human"
    confidence := 1
    timestamp := "2026-01-01T00:00:00+00:00"
    rationale := none
    epistemic_status := .FACT
    policy_version := "KQR-2025-01"
    session_id := "session-1"
    parent_tx_id := none }

/-- A concrete pending transaction. -/
def txSample : SignedTransaction :=
  { tx_id := "tx-1"
    amount := ⟨10000, .EUR⟩
    metadata := mdSample
    signature := none
    status := "pending"
    rejection_reason := none }

/-- A concrete executed transaction (reached through the documented
lifecycle: pending → admitted → executed). -/
def txExecuted : SignedTransaction :=
  { txSample with status := "executed" }

/-- First entry of a concrete untampered ledger over `HashT`. -/
def entrySample0 : LedgerEntry HashT :=
  ⟨0, "t0", txSample, none, .genesis, hashFnT ⟨0, "t0", txSample, none, .genesis⟩⟩

/-- Second entry of the concrete untampered ledger. -/
def entrySample1 : LedgerEntry HashT :=
  ⟨1, "t1", txSample, none, entrySample0.entry_hash,
    hashFnT ⟨1, "t1", txSample, none, entrySample0.entry_hash⟩⟩

/-- A concrete two-entry ledger whose chain verifies. -/
def ledgerSample : Ledger HashT := ⟨[entrySample0, entrySample1], .genesis, 10⟩

/-- `entrySample1` with its stored transaction content corrupted (both
stored hashes kept). -/
def entrySample1Bad : LedgerEntry HashT :=
  { entrySample1 with transaction := txExecuted }

/-- A fully permissive concrete policy. -/
def polPermissive : QualificationPolicy :=
  { min_confidence := 0
    max_amount := none
    require_human_approval_above := none
    allowed_sources := none
    blocked_sources := none
    version := "KQR-2025-01"
    name := "default" }

/-- A concrete policy with a human-approval threshold in EUR. -/
def polHumanEur : QualificationPolicy :=
  { polPermissive with require_human_approval_above := some ⟨500000, .EUR⟩ }

/-- A concrete transaction whose amount is in USD. -/
def txUsd : SignedTransaction :=
  { txSample with amount := ⟨100, .USD⟩ }

/-- A constant instantiation of the signature digest (determinism is all
the signature claims need). -/
def sigHashConst : SignContent → String := fun _ => "digest"

/-- The concrete signed transaction built by the workflow in the
concrete run of `qualify_and_execute`. -/
def txWorkflow : SignedTransaction :=
  (mk_ai_tx "tx-9" "session-9" "t9" ⟨100, .EUR⟩ "model" (9 / 10) none
    "KQR-2025-01").sign sigHashConst

/-- The decision the gate produces for `txWorkflow` under
`polPermissive`. -/
def decisionWorkflow : GateDecision :=
  ((evaluate polPermissive [] txWorkflow).toOption).getD
    ⟨false, "", "", [], [], false⟩

/-- An execute callback that always fails. -/
def execBoom : Money → Except String Unit := fun _ => .error "boom"

/-- An empty concrete ledger over `HashT`. -/
def ledgerEmpty : Ledger HashT := ⟨[], .genesis, 10⟩

end MoneyIfx

namespace MoneyCore

/-- C2: claimed — rounding mode UP returns the integer away from zero,
i.e. the floor for negative inputs, so `-2.3` rounds to `-3`.  The code
instead truncates negative inputs toward zero (`int(v)`), contradicting
its own docstring ("UP: sempre via da zero"): at `-2.3` it returns `-2`
while the away-from-zero value `⌊-2.3⌋` is `-3`. -/
theorem rounding_up_negative_bug :
    apply_rounding (-23 / 10 : ℚ) RoundingMode.UP = -2 ∧
    ⌊(-23 / 10 : ℚ)⌋ = -3 := by
  have h1 : ¬ (0 : ℚ) ≤ -23 / 10 := by norm_num
  constructor
  · simp only [apply_rounding, pyInt, if_neg h1]
    rw [Int.ceil_eq_iff]
    norm_num
  · rw [Int.floor_eq_iff]
    norm_num

/-- C7 (counterexample): equality between Money values of different
currencies does NOT signal a TypeMismatch error — it is answered as the
ordinary boolean `false`. -/
theorem money_eq_cross_currency_counterexample :
    Money.eq ⟨100, Currency.EUR⟩ ⟨100, Currency.USD⟩ = false := by decide

/-- C7 (amended): for Money values of different currencies the ordering
comparisons `<`, `<=`, `>`, `>=` signal TypeMismatch and propagate to the
caller, while equality is answered as the ordinary boolean `false`
(different-currency values are never equal). -/
theorem money_comparison_spec (a b : Money) (h : a.currency ≠ b.currency) :
    Money.eq a b = false ∧
    Money.lt a b = .error ("Impossibile comparare valute diverse: " ++
      a.currency.code ++ " vs " ++ b.currency.code) ∧
    Money.le a b = .error ("Impossibile comparare valute diverse: " ++
      a.currency.code ++ " vs " ++ b.currency.code) ∧
    Money.gt a b = .error ("Impossibile comparare valute diverse: " ++
      a.currency.code ++ " vs " ++ b.currency.code) ∧
    Money.ge a b = .error ("Impossibile comparare valute diverse: " ++
      a.currency.code ++ " vs " ++ b.currency.code) := by
  have hc : Money.check_same_currency a b = .error
      ("Impossibile comparare valute diverse: " ++ a.currency.code ++
        " vs " ++ b.currency.code) := by
    simp [Money.check_same_currency, h]
  refine ⟨?_, ?_, ?_, ?_, ?_⟩
  · simp [Money.eq, h]
  · simp [Money.lt, hc]
  · simp [Money.le, hc]
  · simp [Money.gt, hc]
  · simp [Money.ge, hc]

/-- Witness for C7's amended theorem at a concrete cross-currency pair. -/
theorem money_comparison_spec_witness :
    Money.eq ⟨500, Currency.EUR⟩ ⟨500, Currency.JPY⟩ = false ∧
    Money.lt ⟨500, Currency.EUR⟩ ⟨500, Currency.JPY⟩ =
      .error "Impossibile comparare valute diverse: EUR vs JPY" ∧
    Money.le ⟨500, Currency.EUR⟩ ⟨500, Currency.JPY⟩ =
      .error "Impossibile comparare valute diverse: EUR vs JPY" ∧
    Money.gt ⟨500, Currency.EUR⟩ ⟨500, Currency.JPY⟩ =
      .error "Impossibile comparare valute diverse: EUR vs JPY" ∧
    Money.ge ⟨500, Currency.EUR⟩ ⟨500, Currency.JPY⟩ =
      .error "Impossibile comparare valute diverse: EUR vs JPY" :=
  money_comparison_spec ⟨500, Currency.EUR⟩ ⟨500, Currency.JPY⟩ (by decide)

/-- C6: for every Money `m`, rate `r > 0` and rounding mode, `add_vat`
returns `(net, vat, gross)` with `net + vat = gross` (Money addition
succeeds and is exact), `extract_vat` returns `(net, vat, gross)` with
`gross = m` and `net + vat = gross`, and `apply_discount` returns
`(discount, discounted)` with `discount + discounted = m`: in each case
the second derived value is produced by integer addition or subtraction,
never independently rounded. -/
theorem vat_discount_exact_sum (m : Money) (r : ℚ) (mode : RoundingMode)
    (_hr : 0 < r) :
    Money.add (m.add_vat r mode).1 (m.add_vat r mode).2.1 =
      .ok (m.add_vat r mode).2.2 ∧
    ((m.extract_vat r mode).2.2 = m ∧
      Money.add (m.extract_vat r mode).1 (m.extract_vat r mode).2.1 =
        .ok (m.extract_vat r mode).2.2) ∧
    Money.add (m.apply_discount r mode).1 (m.apply_discount r mode).2 = .ok m := by
  obtain ⟨mu, c⟩ := m
  refine ⟨?_, ⟨rfl, ?_⟩, ?_⟩
  · simp [Money.add_vat, Money.add, Money.of_minor]
  · simp [Money.extract_vat, Money.add, Money.of_minor]
  · simp only [Money.apply_discount, Money.add, Money.of_minor]
    have h : mu - apply_rounding ((mu : ℚ) * (r / 100)) mode +
        apply_rounding ((mu : ℚ) * (r / 100)) mode = mu := by omega
    simp [h]

/-- Witness for C6 at 123.45 EUR with a 22% rate under HALF_UP. -/
theorem vat_discount_exact_sum_witness :
    (0 : ℚ) < 22 ∧
    (Money.add ((Money.mk 12345 Currency.EUR).add_vat 22 RoundingMode.HALF_UP).1
        ((Money.mk 12345 Currency.EUR).add_vat 22 RoundingMode.HALF_UP).2.1 =
      .ok ((Money.mk 12345 Currency.EUR).add_vat 22 RoundingMode.HALF_UP).2.2 ∧
    (((Money.mk 12345 Currency.EUR).extract_vat 22 RoundingMode.HALF_UP).2.2 =
        Money.mk 12345 Currency.EUR ∧
      Money.add ((Money.mk 12345 Currency.EUR).extract_vat 22 RoundingMode.HALF_UP).1
          ((Money.mk 12345 Currency.EUR).extract_vat 22 RoundingMode.HALF_UP).2.1 =
        .ok ((Money.mk 12345 Currency.EUR).extract_vat 22 RoundingMode.HALF_UP).2.2) ∧
    Money.add ((Money.mk 12345 Currency.EUR).apply_discount 22 RoundingMode.HALF_UP).1
        ((Money.mk 12345 Currency.EUR).apply_discount 22 RoundingMode.HALF_UP).2 =
      .ok (Money.mk 12345 Currency.EUR)) :=
  ⟨by norm_num,
   vat_discount_exact_sum (Money.mk 12345 Currency.EUR) 22 RoundingMode.HALF_UP
     (by norm_num)⟩

end MoneyCore

namespace MoneyIfx

open MoneyCore

/-- C5 (failing run): with a human-approval threshold configured in EUR
and a transaction amount in USD, `Gate.evaluate` does not return a
decision at all: `_check_human_approval` computes
`exceeds = tx.amount > threshold` before consulting `same_currency`, so
`Money.__gt__` raises TypeMismatch and the error escapes `evaluate` —
whereas the claim says the human-approval check merely leaves
`requiresHumanApproval` false in this situation. -/
theorem gate_human_check_raises_bug :
    evaluate polHumanEur [] txUsd =
      .error "Impossibile comparare valute diverse: USD vs EUR" := by
  rfl

/-- C3 (counterexample): `admit()` on an executed transaction does not
signal InvalidState — it plainly returns a value whose status is
"admitted", reversing the lifecycle. -/
theorem admit_unguarded_counterexample :
    txExecuted.status = "executed" ∧
    txExecuted.mark_admitted =
      { txExecuted with status := "admitted", rejection_reason := none } ∧
    (txExecuted.mark_admitted).status = "admitted" := by
  exact ⟨rfl, rfl, rfl⟩

/-- C3 (amended): only `execute()` enforces a lifecycle guard — it
succeeds exactly on admitted transactions (producing the executed value)
and signals InvalidState on every other status; `admit()` and
`reject(reason)` perform no status check and move any transaction to
"admitted" resp. "rejected". -/
theorem transition_guard_spec (tx : SignedTransaction) (reason : String) :
    (tx.status = "admitted" →
      tx.execute = .ok { tx with status := "executed", rejection_reason := none }) ∧
    (tx.status ≠ "admitted" →
      tx.execute = .error ("Cannot execute transaction in status '" ++ tx.status ++ "'")) ∧
    tx.mark_admitted = { tx with status := "admitted", rejection_reason := none } ∧
    tx.reject reason = { tx with status := "rejected", rejection_reason := some reason } := by
  refine ⟨?_, ?_, rfl, rfl⟩
  · intro h
    simp [SignedTransaction.execute, h]
  · intro h
    simp [SignedTransaction.execute, h]

/-- Witness for C3's amended theorem: `execute` succeeds on a concrete
admitted transaction and fails on the same transaction while pending. -/
theorem transition_guard_spec_witness :
    txSample.mark_admitted.execute =
      .ok { txSample.mark_admitted with status := "executed", rejection_reason := none } ∧
    txSample.execute = .error "Cannot execute transaction in status 'pending'" := by
  refine ⟨(transition_guard_spec txSample.mark_admitted "r").1 rfl, ?_⟩
  exact (transition_guard_spec txSample "r").2.1 (by decide)

/-- The lifecycle transitions and the signing transform keep the signed
content `{tx_id, amount, metadata}` and the stored signature unchanged. -/
theorem applyOp_preserves_core (tx : SignedTransaction) (op : TransitionOp) :
    (applyOp tx op).signContent = tx.signContent ∧
    (applyOp tx op).signature = tx.signature := by
  cases op with
  | admitOp => exact ⟨rfl, rfl⟩
  | rejectOp r => exact ⟨rfl, rfl⟩
  | executeOp =>
    by_cases h : tx.status ≠ "admitted"
    · simp [applyOp, SignedTransaction.execute, h]
    · simp [applyOp, SignedTransaction.execute, h, SignedTransaction.signContent]

/-- Iterated version of `applyOp_preserves_core`. -/
theorem applyOps_preserves_core (tx : SignedTransaction) (ops : List TransitionOp) :
    (applyOps tx ops).signContent = tx.signContent ∧
    (applyOps tx ops).signature = tx.signature := by
  induction ops generalizing tx with
  | nil => exact ⟨rfl, rfl⟩
  | cons op rest ih =>
    have h1 := applyOp_preserves_core tx op
    have h2 := ih (applyOp tx op)
    exact ⟨h2.1.trans h1.1, h2.2.trans h1.2⟩

/-- Signature verification depends only on the signed content and the
stored signature. -/
theorem verify_signature_congr (sigHash : SignContent → String)
    (t1 t2 : SignedTransaction) (hc : t1.signContent = t2.signContent)
    (hs : t1.signature = t2.signature) :
    t1.verify_signature sigHash = t2.verify_signature sigHash := by
  simp [SignedTransaction.verify_signature, hc, hs]

/-- C10: the signature attached by `sign()` covers exactly
`{tx_id, amount, metadata}` — not the status nor the rejection reason —
so `verify_signature()` is true immediately after `sign()`, stays true
after any sequence of `admit`/`reject`/`execute` transitions, and stays
true under any direct overwrite of the status and rejection-reason
fields. -/
theorem signature_covers_content_spec (sigHash : SignContent → String)
    (tx : SignedTransaction) (ops : List TransitionOp) (s : String)
    (r : Option String) :
    (tx.sign sigHash).signature = some (sigHash tx.signContent) ∧
    (tx.sign sigHash).verify_signature sigHash = true ∧
    (applyOps (tx.sign sigHash) ops).verify_signature sigHash = true ∧
    ({ tx.sign sigHash with status := s, rejection_reason := r
        } : SignedTransaction).verify_signature sigHash = true := by
  have hbase : (tx.sign sigHash).verify_signature sigHash = true := by
    simp [SignedTransaction.verify_signature, SignedTransaction.sign,
      SignedTransaction.signContent]
  refine ⟨rfl, hbase, ?_, ?_⟩
  · have h := applyOps_preserves_core (tx.sign sigHash) ops
    exact (verify_signature_congr sigHash _ _ h.1 h.2).trans hbase
  · exact (verify_signature_congr sigHash _ _ rfl rfl).trans hbase

end MoneyIfx

namespace MoneyCore

/-- Sum of the Largest-Remainder parts: `n` copies of `base`, plus one
extra unit for each index below the remainder bound. -/
theorem sum_range_base_indicator (nN rN : ℕ) (base : ℤ) :
    ((List.range nN).map
      (fun i : ℕ => base + if (i : ℤ) < (rN : ℤ) then (1 : ℤ) else 0)).sum
      = nN * base + min rN nN := by
  induction nN with
  | zero => simp
  | succ k ih =>
    rw [List.range_succ, List.map_append, List.sum_append, ih]
    simp only [List.map_cons, List.map_nil, List.sum_cons, List.sum_nil, add_zero]
    by_cases h : (k : ℤ) < (rN : ℤ)
    · have hk : k < rN := by exact_mod_cast h
      have h1 : min rN (k + 1) = k + 1 := by omega
      have h2 : min rN k = k := by omega
      rw [if_pos h, h1, h2]
      push_cast
      ring
    · have hk : rN ≤ k := by
        have := not_lt.mp h
        exact_mod_cast this
      have h1 : min rN (k + 1) = rN := by omega
      have h2 : min rN k = rN := by omega
      rw [if_neg h, h1, h2]
      push_cast
      ring

/-- C1: for every Money value `m` (zero and negative amounts included)
and every integer `n` with `1 ≤ n ≤ 10000`, `distribute(n)` returns a
list of exactly `n` Money values of `m`'s currency whose minor units sum
to `m`'s exactly; for `n ≤ 0` or `n > 10000` it signals InvalidArgument
instead. -/
theorem distribute_spec (m : Money) (n : ℤ) :
    (1 ≤ n ∧ n ≤ 10000 →
      ∃ parts, m.distribute n = .ok parts ∧
        parts.length = n.toNat ∧
        (parts.map Money.minor_units).sum = m.minor_units ∧
        ∀ p ∈ parts, p.currency = m.currency) ∧
    (n ≤ 0 ∨ 10000 < n → ∃ msg, m.distribute n = .error msg) := by
  constructor
  · rintro ⟨hn1, hn2⟩
    have hn0 : ¬ n ≤ 0 := by omega
    have hnM : ¬ ((MAX_DISTRIBUTION_PARTS : ℤ) < n) := by
      simp only [MAX_DISTRIBUTION_PARTS]
      push_cast
      omega
    have hnpos : 0 < n := by omega
    refine ⟨(List.range n.toNat).map
        (fun i : ℕ => Money.of_minor
          (m.minor_units.fdiv n + if (i : ℤ) < m.minor_units.fmod n then 1 else 0)
          m.currency), ?_, ?_, ?_, ?_⟩
    · simp only [Money.distribute, if_neg hn0, if_neg hnM]
    · simp
    · have hr0 : 0 ≤ m.minor_units.fmod n := Int.fmod_nonneg' _ hnpos
      have hrlt : m.minor_units.fmod n < n := Int.fmod_lt_of_pos _ hnpos
      have hid : n * m.minor_units.fdiv n + m.minor_units.fmod n = m.minor_units :=
        Int.fdiv_add_fmod _ _
      have hcast : ((m.minor_units.fmod n).toNat : ℤ) = m.minor_units.fmod n :=
        Int.toNat_of_nonneg hr0
      rw [List.map_map]
      have hfun : (Money.minor_units ∘
          fun i : ℕ => Money.of_minor
            (m.minor_units.fdiv n + if (i : ℤ) < m.minor_units.fmod n then 1 else 0)
            m.currency) =
          fun i : ℕ => m.minor_units.fdiv n +
            if (i : ℤ) < (((m.minor_units.fmod n).toNat : ℕ) : ℤ) then (1 : ℤ) else 0 := by
        funext i
        simp [Money.of_minor, hcast]
      rw [hfun, sum_range_base_indicator]
      have hmin : min (m.minor_units.fmod n).toNat n.toNat =
          (m.minor_units.fmod n).toNat := by omega
      rw [hmin, hcast]
      have hntn : (n.toNat : ℤ) = n := Int.toNat_of_nonneg (le_of_lt hnpos)
      rw [hntn]
      exact hid
    · intro p hp
      simp only [List.mem_map] at hp
      obtain ⟨i, _, hpi⟩ := hp
      rw [← hpi]
      rfl
  · rintro (h | h)
    · refine ⟨"n deve essere > 0, ricevuto: " ++ toString n, ?_⟩
      simp [Money.distribute, h]
    · have hn0 : ¬ n ≤ 0 := by omega
      have hM : (MAX_DISTRIBUTION_PARTS : ℤ) < n := by
        simp only [MAX_DISTRIBUTION_PARTS]
        push_cast
        omega
      refine ⟨"n supera il limite di 10000", ?_⟩
      simp [Money.distribute, hn0, hM]

/-- Witness for C1: 2026 euros split in 12 parts, and the rejection of
`n = 0`. -/
theorem distribute_spec_witness :
    (∃ parts, (Money.mk 202600 Currency.EUR).distribute 12 = .ok parts ∧
      parts.length = (12 : ℤ).toNat ∧
      (parts.map Money.minor_units).sum = (Money.mk 202600 Currency.EUR).minor_units ∧
      ∀ p ∈ parts, p.currency = (Money.mk 202600 Currency.EUR).currency) ∧
    (∃ msg, (Money.mk 100 Currency.EUR).distribute 0 = .error msg) :=
  ⟨(distribute_spec (Money.mk 202600 Currency.EUR) 12).1 (by norm_num),
   (distribute_spec (Money.mk 100 Currency.EUR) 0).2 (Or.inl (by norm_num))⟩

end MoneyCore

namespace MoneyCore

/-- Python `max` on a non-empty rational list: `List.max?` yields a
member that bounds every element. -/
theorem max?_spec (l : List ℚ) (h : l ≠ []) :
    ∃ mx, l.max? = some mx ∧ mx ∈ l ∧ ∀ w ∈ l, w ≤ mx := by
  cases hm : l.max? with
  | none =>
    rw [List.max?_eq_none_iff] at hm
    exact absurd hm h
  | some mx =>
    haveI : Std.Antisymm ((· : ℚ) ≤ ·) := ⟨@fun _ _ h1 h2 => le_antisymm h1 h2⟩
    rw [List.max?_eq_some_iff le_refl (fun a b => max_choice a b)
      (fun a b c => max_le_iff)] at hm
    exact ⟨mx, rfl, hm.1, hm.2⟩

/-- Entries strictly before `indexOf a` differ from `a` (Python
`list.index` returns the first occurrence). -/
theorem getD_ne_of_lt_indexOf (l : List ℚ) (a : ℚ) (j : ℕ)
    (hj : j < l.indexOf a) : l.getD j 0 ≠ a := by
  induction l generalizing j with
  | nil => simp [List.indexOf] at hj
  | cons x xs ih =>
    by_cases hx : x = a
    · subst hx
      simp [List.indexOf_cons_self] at hj
    · rw [List.indexOf_cons_ne _ hx] at hj
      cases j with
      | zero => simpa using hx
      | succ k => simpa using ih k (Nat.lt_of_succ_lt_succ hj)

/-- Overwriting a position with its own value (read through `getD`)
leaves the list unchanged. -/
theorem set_getD_self (l : List ℤ) (n : ℕ) (hn : n < l.length) :
    l.set n (l.getD n 0) = l := by
  apply List.ext_getElem
  · simp
  · intro i h1 h2
    rw [List.getElem_set]
    split
    next h =>
      subst h
      exact List.getD_eq_getElem l 0 hn
    next h => rfl

/-- C8: under the claim's preconditions (non-empty, non-negative
weights, positive sum, at most 10000 entries), `distribute_weighted`
returns one part per weight, each part rounded from
`minorUnits × weight / Σweights` under the chosen mode, with the
residual `minorUnits − Σparts` added to the part with the largest weight
(first occurrence on ties), so the parts' minor units sum exactly to the
original. -/
theorem distribute_weighted_spec (m : Money) (weights : List ℚ)
    (mode : RoundingMode) (hne : weights ≠ []) (hlen : weights.length ≤ 10000)
    (hnn : ∀ w ∈ weights, 0 ≤ w) (hpos : 0 < weights.sum) :
    ∃ parts k,
      m.distribute_weighted weights mode = .ok parts ∧
      parts.length = weights.length ∧
      (∀ p ∈ parts, p.currency = m.currency) ∧
      (parts.map Money.minor_units).sum = m.minor_units ∧
      k < weights.length ∧
      (∀ w ∈ weights, w ≤ weights.getD k 0) ∧
      (∀ j, j < k → weights.getD j 0 < weights.getD k 0) ∧
      parts.map Money.minor_units =
        (weights.map (fun w =>
            apply_rounding ((m.minor_units : ℚ) * w / weights.sum) mode)).set k
          ((weights.map (fun w =>
              apply_rounding ((m.minor_units : ℚ) * w / weights.sum) mode)).getD k 0 +
            (m.minor_units -
              (weights.map (fun w =>
                apply_rounding ((m.minor_units : ℚ) * w / weights.sum) mode)).sum)) := by
  obtain ⟨mx, hmx, hmem, hub⟩ := max?_spec weights hne
  set rounded := weights.map
    (fun w => apply_rounding ((m.minor_units : ℚ) * w / weights.sum) mode) with hrounded
  set k := weights.indexOf mx with hkdef
  have hk : k < weights.length := List.indexOf_lt_length.mpr hmem
  have hkget : weights.getD k 0 = mx := by
    rw [List.getD_eq_getElem weights 0 hk]
    exact List.getElem_indexOf hk
  have hklen : k < rounded.length := by simpa [hrounded] using hk
  have hE : weights.isEmpty = false := by
    cases weights with
    | nil => exact absurd rfl hne
    | cons a l => rfl
  have hL : ¬ (MAX_DISTRIBUTION_PARTS < weights.length) := by
    simp only [MAX_DISTRIBUTION_PARTS]
    omega
  have hA : weights.any (fun w => decide (w < 0)) = false := by
    simp only [List.any_eq_false, decide_eq_true_eq]
    intro w hw
    exact not_lt.mpr (hnn w hw)
  have hT : ¬ (weights.sum = 0) := ne_of_gt hpos
  have hmaps : ((weights.map (fun w => w / weights.sum)).map
      (fun p => (m.minor_units : ℚ) * p)).map (fun a => apply_rounding a mode) =
      rounded := by
    rw [List.map_map, List.map_map, hrounded]
    apply List.map_congr_left
    intro w _
    simp [Function.comp, mul_div_assoc]
  have hok : m.distribute_weighted weights mode =
      .ok ((rounded.set k (rounded.getD k 0 + (m.minor_units - rounded.sum))).map
        (fun r => Money.of_minor r m.currency)) := by
    rw [Money.distribute_weighted]
    rw [if_neg (by simp [hE]), if_neg hL, if_neg (by simp [hA]), if_neg hT]
    simp only [hmaps, hmx, Option.getD_some, ← hkdef]
    by_cases hd : m.minor_units - rounded.sum ≠ 0
    · rw [if_pos hd]
    · rw [if_neg hd]
      push_neg at hd
      rw [hd, add_zero, set_getD_self rounded k hklen]
  refine ⟨_, k, hok, ?_, ?_, ?_, hk, ?_, ?_, ?_⟩
  · simp [hrounded]
  · intro p hp
    simp only [List.mem_map] at hp
    obtain ⟨r, _, hpr⟩ := hp
    rw [← hpr]
    rfl
  have hcomp : (Money.minor_units ∘ fun r : ℤ => Money.of_minor r m.currency) = id := by
    funext r
    rfl
  · have hmm : ((rounded.set k (rounded.getD k 0 + (m.minor_units - rounded.sum))).map
        (fun r => Money.of_minor r m.currency)).map Money.minor_units =
        rounded.set k (rounded.getD k 0 + (m.minor_units - rounded.sum)) := by
      rw [List.map_map, hcomp, List.map_id]
    rw [hmm, List.sum_set']
    rw [dif_pos hklen, List.getD_eq_getElem rounded 0 hklen]
    ring
  · intro w hw
    rw [hkget]
    exact hub w hw
  · intro j hj
    have hjlen : j < weights.length := lt_trans hj hk
    have hne2 : weights.getD j 0 ≠ mx := getD_ne_of_lt_indexOf weights mx j hj
    have hmem2 : weights.getD j 0 ∈ weights := by
      rw [List.getD_eq_getElem weights 0 hjlen]
      exact List.getElem_mem hjlen
    rw [hkget]
    exact lt_of_le_of_ne (hub _ hmem2) hne2
  · have hcomp : (Money.minor_units ∘ fun r : ℤ => Money.of_minor r m.currency) = id := by
      funext r
      rfl
    rw [List.map_map, hcomp, List.map_id]

/-- Witness for C8: 1.00 EUR split over weights `[1, 2, 1]`. -/
theorem distribute_weighted_spec_witness :
    ([(1 : ℚ), 2, 1] : List ℚ) ≠ [] ∧
    ∃ parts k,
      (Money.mk 100 Currency.EUR).distribute_weighted [(1 : ℚ), 2, 1]
        RoundingMode.HALF_UP = .ok parts ∧
      parts.length = ([(1 : ℚ), 2, 1] : List ℚ).length ∧
      (∀ p ∈ parts, p.currency = (Money.mk 100 Currency.EUR).currency) ∧
      (parts.map Money.minor_units).sum = (Money.mk 100 Currency.EUR).minor_units ∧
      k < ([(1 : ℚ), 2, 1] : List ℚ).length ∧
      (∀ w ∈ [(1 : ℚ), 2, 1], w ≤ ([(1 : ℚ), 2, 1] : List ℚ).getD k 0) ∧
      (∀ j, j < k →
        ([(1 : ℚ), 2, 1] : List ℚ).getD j 0 < ([(1 : ℚ), 2, 1] : List ℚ).getD k 0) ∧
      parts.map Money.minor_units =
        (([(1 : ℚ), 2, 1] : List ℚ).map (fun w =>
            apply_rounding (((Money.mk 100 Currency.EUR).minor_units : ℚ) * w /
              ([(1 : ℚ), 2, 1] : List ℚ).sum) RoundingMode.HALF_UP)).set k
          ((([(1 : ℚ), 2, 1] : List ℚ).map (fun w =>
              apply_rounding (((Money.mk 100 Currency.EUR).minor_units : ℚ) * w /
                ([(1 : ℚ), 2, 1] : List ℚ).sum) RoundingMode.HALF_UP)).getD k 0 +
            ((Money.mk 100 Currency.EUR).minor_units -
              (([(1 : ℚ), 2, 1] : List ℚ).map (fun w =>
                apply_rounding (((Money.mk 100 Currency.EUR).minor_units : ℚ) * w /
                  ([(1 : ℚ), 2, 1] : List ℚ).sum) RoundingMode.HALF_UP)).sum)) :=
  ⟨List.cons_ne_nil 1 [2, 1],
   distribute_weighted_spec (Money.mk 100 Currency.EUR) [(1 : ℚ), 2, 1]
     RoundingMode.HALF_UP (List.cons_ne_nil 1 [2, 1]) (by norm_num)
     (by intro w hw; fin_cases hw <;> norm_num)
     (by norm_num [List.sum_cons, List.sum_nil])⟩

end MoneyCore

namespace MoneyIfx

open MoneyCore

/-- Reduction of an `Except` bind on a success value. -/
theorem exceptBind_ok {ε α β : Type} (a : α) (f : α → Except ε β) :
    (Except.ok a : Except ε α) >>= f = f a := rfl

/-- C9: whenever the gate produces a decision for the signed transaction
the workflow builds (and the ledger has capacity), `qualify_and_execute`
appends exactly one ledger entry for that call — carrying the
transaction state alongside its gate decision (the admitted state on the
admitted path, the rejected state with the gate reason otherwise) — and
when the execute callback fails the returned transaction has
transitioned to "rejected" with the failure message and the reject
callback was invoked with exactly that error. -/
theorem qualify_and_execute_spec {Hash : Type} [DecidableEq Hash]
    (hashFn : EntryContent Hash → Hash) (sigHash : SignContent → String)
    (tx_id session_id timestamp : String) (amount : Money) (source : String)
    (confidence : ℚ) (rationale : Option String) (policy : QualificationPolicy)
    (customs : List (SignedTransaction → Option String)) (ledger : Ledger Hash)
    (on_execute : Money → Except String Unit) (decision : GateDecision)
    (hconf : 0 ≤ confidence ∧ confidence ≤ 1)
    (heval : evaluate policy customs ((mk_ai_tx tx_id session_id timestamp amount
      source confidence rationale policy.version).sign sigHash) = .ok decision)
    (hcap : ledger.entries.length < ledger.max_entries) :
    ∃ success tx2 ledger2 rejects entry,
      qualify_and_execute hashFn sigHash tx_id session_id timestamp amount source
        confidence rationale policy customs ledger on_execute =
        .ok (success, tx2, decision, ledger2, rejects) ∧
      ledger2.entries = ledger.entries ++ [entry] ∧
      entry.decision = some decision ∧
      (decision.admitted = true →
        entry.transaction = ((mk_ai_tx tx_id session_id timestamp amount source
          confidence rationale policy.version).sign sigHash).mark_admitted) ∧
      (decision.admitted = false →
        entry.transaction = ((mk_ai_tx tx_id session_id timestamp amount source
          confidence rationale policy.version).sign sigHash).reject decision.reason ∧
        tx2 = entry.transaction ∧ rejects = [decision.reason]) ∧
      (decision.admitted = true → ∀ e, on_execute amount = .error e →
        tx2.status = "rejected" ∧
        tx2.rejection_reason = some ("Execution failed: " ++ e) ∧ rejects = [e]) ∧
      (decision.admitted = true → on_execute amount = .ok () →
        tx2.status = "executed" ∧ rejects = []) := by
  have hfa : from_ai_output tx_id session_id timestamp amount source confidence
      rationale policy.version = .ok (mk_ai_tx tx_id session_id timestamp amount
        source confidence rationale policy.version) := by
    rw [from_ai_output, if_neg (not_not_intro hconf)]
  set tx := (mk_ai_tx tx_id session_id timestamp amount source confidence
    rationale policy.version).sign sigHash with htx
  set prevH : Hash := (match ledger.entries.getLast? with
    | none => ledger.genesis_hash
    | some e => e.entry_hash) with hprevH
  have hamt : tx.mark_admitted.amount = amount := rfl
  cases habm : decision.admitted with
  | true =>
    set entryA : LedgerEntry Hash :=
      ⟨ledger.entries.length, timestamp, tx.mark_admitted, some decision, prevH,
        hashFn ⟨ledger.entries.length, timestamp, tx.mark_admitted, some decision, prevH⟩⟩
      with hentryA
    have happ : ledger.append hashFn timestamp tx.mark_admitted (some decision) =
        .ok ({ ledger with entries := ledger.entries ++ [entryA] }, entryA) := by
      rw [Ledger.append, if_neg (by omega)]
    have hexec : tx.mark_admitted.execute =
        .ok { tx.mark_admitted with status := "executed", rejection_reason := none } := by
      rw [SignedTransaction.execute, if_neg (by simp [SignedTransaction.mark_admitted])]
    cases hoe : on_execute amount with
    | ok u =>
      cases u
      refine ⟨true, { tx.mark_admitted with status := "executed", rejection_reason := none },
        { ledger with entries := ledger.entries ++ [entryA] }, [], entryA,
        ?_, rfl, rfl, fun _ => rfl, ?_, ?_, ?_⟩
      · rw [qualify_and_execute]
        simp only [hfa, exceptBind_ok, ← htx, heval, habm, reduceIte, happ, hamt,
          hoe, hexec]
      · intro hbad
        exact absurd hbad (by simp)
      · intro _ e hbad
        exact absurd hbad (by simp)
      · intro _ _
        exact ⟨rfl, rfl⟩
    | error e =>
      refine ⟨true, tx.mark_admitted.reject ("Execution failed: " ++ e),
        { ledger with entries := ledger.entries ++ [entryA] }, [e], entryA,
        ?_, rfl, rfl, fun _ => rfl, ?_, ?_, ?_⟩
      · rw [qualify_and_execute]
        simp only [hfa, exceptBind_ok, ← htx, heval, habm, reduceIte, happ, hamt,
          hoe]
      · intro hbad
        exact absurd hbad (by simp)
      · intro _ e2 he2
        injection he2 with h2
        subst h2
        exact ⟨rfl, rfl, rfl⟩
      · intro _ hbad
        exact absurd hbad (by simp)
  | false =>
    set entryR : LedgerEntry Hash :=
      ⟨ledger.entries.length, timestamp, tx.reject decision.reason, some decision,
        prevH, hashFn ⟨ledger.entries.length, timestamp, tx.reject decision.reason,
          some decision, prevH⟩⟩ with hentryR
    have happ : ledger.append hashFn timestamp (tx.reject decision.reason)
        (some decision) =
        .ok ({ ledger with entries := ledger.entries ++ [entryR] }, entryR) := by
      rw [Ledger.append, if_neg (by omega)]
    refine ⟨false, tx.reject decision.reason,
      { ledger with entries := ledger.entries ++ [entryR] }, [decision.reason],
      entryR, ?_, rfl, rfl, ?_, ?_, ?_, ?_⟩
    · rw [qualify_and_execute]
      simp only [hfa, exceptBind_ok, ← htx, heval, habm, reduceIte, happ,
        Bool.false_eq_true, if_false]
    · intro hbad
      exact absurd hbad (by simp)
    · intro _
      exact ⟨rfl, rfl, rfl⟩
    · intro hbad
      exact absurd hbad (by simp)
    · intro hbad
      exact absurd hbad (by simp)

end MoneyIfx

namespace MoneyIfx

open MoneyCore

/-- Witness for C9: a concrete admitted transaction whose execute
callback fails, run against the permissive policy on an empty ledger. -/
theorem qualify_and_execute_spec_witness :
    ∃ success tx2 ledger2 rejects entry,
      qualify_and_execute hashFnT sigHashConst "tx-9" "session-9" "t9"
        ⟨100, Currency.EUR⟩ "model" (9 / 10) none polPermissive []
        ledgerEmpty execBoom =
        .ok (success, tx2, decisionWorkflow, ledger2, rejects) ∧
      ledger2.entries = ledgerEmpty.entries ++ [entry] ∧
      entry.decision = some decisionWorkflow ∧
      (decisionWorkflow.admitted = true →
        entry.transaction = ((mk_ai_tx "tx-9" "session-9" "t9"
          ⟨100, Currency.EUR⟩ "model" (9 / 10) none
          polPermissive.version).sign sigHashConst).mark_admitted) ∧
      (decisionWorkflow.admitted = false →
        entry.transaction = ((mk_ai_tx "tx-9" "session-9" "t9"
          ⟨100, Currency.EUR⟩ "model" (9 / 10) none
          polPermissive.version).sign sigHashConst).reject
            decisionWorkflow.reason ∧
        tx2 = entry.transaction ∧ rejects = [decisionWorkflow.reason]) ∧
      (decisionWorkflow.admitted = true → ∀ e,
        execBoom ⟨100, Currency.EUR⟩ = .error e →
        tx2.status = "rejected" ∧
        tx2.rejection_reason = some ("Execution failed: " ++ e) ∧ rejects = [e]) ∧
      (decisionWorkflow.admitted = true →
        execBoom ⟨100, Currency.EUR⟩ = .ok () →
        tx2.status = "executed" ∧ rejects = []) :=
  qualify_and_execute_spec hashFnT sigHashConst "tx-9" "session-9" "t9"
    ⟨100, Currency.EUR⟩ "model" (9 / 10) none polPermissive [] ledgerEmpty
    execBoom decisionWorkflow ⟨by norm_num, by norm_num⟩ (by rfl) (by decide)

end MoneyIfx

namespace MoneyIfx

open MoneyCore

/-- `verify_chain`'s walk succeeds exactly on well-chained entry lists. -/
theorem verifyFrom_eq_true_iff {Hash : Type} [DecidableEq Hash]
    (hashFn : EntryContent Hash → Hash) (prev : Hash) (i : ℕ)
    (l : List (LedgerEntry Hash)) :
    verifyFrom hashFn prev i l = (true, none) ↔ chainOk hashFn prev l := by
  induction l generalizing prev i with
  | nil => simp [verifyFrom, chainOk]
  | cons e rest ih =>
    by_cases h1 : e.previous_hash = prev
    · by_cases h2 : e.entry_hash = hashFn e.content
      · simp [verifyFrom, chainOk, h1, h2, ih]
      · simp [verifyFrom, chainOk, h1, h2]
    · simp [verifyFrom, chainOk, h1]

/-- `lastHash` steps through a cons cell. -/
theorem lastHash_cons {Hash : Type} (prev : Hash) (x : LedgerEntry Hash)
    (xs : List (LedgerEntry Hash)) :
    lastHash prev (x :: xs) = lastHash x.entry_hash xs := by
  cases xs with
  | nil => rfl
  | cons y ys =>
    rw [lastHash, lastHash, List.getLast?_cons_cons]
    cases h : (y :: ys).getLast? with
    | none =>
      have h2 : (y :: ys) ≠ [] := by simp
      rw [← List.getLast?_isSome, h] at h2
      simp at h2
    | some z => rfl

/-- Chaining a list extended by one entry: the old list must be
well-chained and the new entry must link to its last hash and carry a
correct entry hash. -/
theorem chainOk_append {Hash : Type} [DecidableEq Hash]
    (hashFn : EntryContent Hash → Hash) (prev : Hash)
    (l : List (LedgerEntry Hash)) (e : LedgerEntry Hash) :
    chainOk hashFn prev (l ++ [e]) ↔
      chainOk hashFn prev l ∧ e.previous_hash = lastHash prev l ∧
        e.entry_hash = hashFn e.content := by
  induction l generalizing prev with
  | nil => simp [chainOk, lastHash]
  | cons x xs ih =>
    simp only [List.cons_append, chainOk, List.append_eq, ih, lastHash_cons]
    tauto

/-- `Ledger.append` (within capacity) preserves the chain invariant and
extends the entry list by exactly the returned entry. -/
theorem append_chainOk {Hash : Type} [DecidableEq Hash]
    (hashFn : EntryContent Hash → Hash) (L : Ledger Hash) (ts : String)
    (tx : SignedTransaction) (d : Option GateDecision)
    (hcap : L.entries.length < L.max_entries)
    (h : chainOk hashFn L.genesis_hash L.entries) :
    ∃ L2 E, L.append hashFn ts tx d = .ok (L2, E) ∧
      L2.genesis_hash = L.genesis_hash ∧ L2.max_entries = L.max_entries ∧
      L2.entries = L.entries ++ [E] ∧
      chainOk hashFn L.genesis_hash L2.entries := by
  refine ⟨{ L with entries := L.entries ++
      [⟨L.entries.length, ts, tx, d, lastHash L.genesis_hash L.entries,
        hashFn ⟨L.entries.length, ts, tx, d, lastHash L.genesis_hash L.entries⟩⟩] },
    ⟨L.entries.length, ts, tx, d, lastHash L.genesis_hash L.entries,
      hashFn ⟨L.entries.length, ts, tx, d, lastHash L.genesis_hash L.entries⟩⟩,
    ?_, rfl, rfl, rfl, ?_⟩
  · rw [Ledger.append, if_neg (by omega)]
    rfl
  · rw [chainOk_append]
    exact ⟨h, rfl, rfl⟩

/-- Iterated appends from a well-chained ledger stay well-chained. -/
theorem appendMany_ok {Hash : Type} [DecidableEq Hash]
    (hashFn : EntryContent Hash → Hash)
    (inputs : List (String × SignedTransaction × Option GateDecision))
    (L : Ledger Hash)
    (hcap : L.entries.length + inputs.length ≤ L.max_entries)
    (h : chainOk hashFn L.genesis_hash L.entries) :
    ∃ L2, appendMany hashFn L inputs = .ok L2 ∧
      L2.entries.length = L.entries.length + inputs.length ∧
      L2.genesis_hash = L.genesis_hash ∧
      chainOk hashFn L2.genesis_hash L2.entries := by
  induction inputs generalizing L with
  | nil => exact ⟨L, rfl, by simp, rfl, h⟩
  | cons input rest ih =>
    obtain ⟨ts, tx, d⟩ := input
    obtain ⟨L2, E, happ, hg, hm, hent, hchain⟩ :=
      append_chainOk hashFn L ts tx d (by simp at hcap; omega) h
    obtain ⟨L3, h1, h2, h3, h4⟩ := ih L2
      (by simp [hent, hm] at hcap ⊢; omega) (hg ▸ hchain)
    refine ⟨L3, ?_, ?_, ?_, h4⟩
    · rw [appendMany, happ]
      exact h1
    · rw [h2, hent]
      simp
      omega
    · rw [h3, hg]

/-- Tampering with entry `k` of a well-chained list makes the
verification walk report index `i + k`. -/
theorem verifyFrom_set_tampered {Hash : Type} [DecidableEq Hash]
    (hashFn : EntryContent Hash → Hash) (hinj : Function.Injective hashFn)
    (prev : Hash) (i k : ℕ) (l : List (LedgerEntry Hash))
    (e2 : LedgerEntry Hash) (hO : chainOk hashFn prev l)
    (hk : k < l.length) (ht : Tampered (l.get ⟨k, hk⟩) e2) :
    verifyFrom hashFn prev i (l.set k e2) = (false, some (i + k)) := by
  induction l generalizing prev i k with
  | nil => simp at hk
  | cons x xs ih =>
    obtain ⟨hp, hh, hrest⟩ := hO
    cases k with
    | zero =>
      have hx : (x :: xs).get ⟨0, hk⟩ = x := rfl
      rw [hx] at ht
      rw [List.set_cons_zero, Nat.add_zero]
      rcases ht with ⟨hc, hpe, hhe⟩ | hpe | ⟨hhe, hpe, hce⟩
      · rw [verifyFrom, if_neg (not_not_intro (hpe.trans hp)),
          if_pos (show e2.entry_hash ≠ hashFn e2.content from ?_)]
        rw [hhe, hh]
        intro hcontra
        exact hc (hinj hcontra.symm)
      · rw [verifyFrom, if_pos (show e2.previous_hash ≠ prev from ?_)]
        rw [← hp]
        exact hpe
      · rw [verifyFrom, if_neg (not_not_intro (hpe.trans hp)),
          if_pos (show e2.entry_hash ≠ hashFn e2.content from ?_)]
        rw [hce, ← hh]
        exact hhe
    | succ k2 =>
      have hk2 : k2 < xs.length := Nat.lt_of_succ_lt_succ hk
      have hx : (x :: xs).get ⟨k2 + 1, hk⟩ = xs.get ⟨k2, hk2⟩ := rfl
      rw [hx] at ht
      rw [List.set_cons_succ]
      rw [verifyFrom, if_neg (not_not_intro hp), if_neg (not_not_intro hh)]
      rw [ih x.entry_hash (i + 1) k2 hrest hk2 ht]
      have : i + 1 + k2 = i + (k2 + 1) := by omega
      rw [this]

/-- C4: a ledger built from the empty ledger by sequential appends (no
tampering, within capacity) passes `verify_chain` with `(true, none)`;
and in any ledger whose chain verifies, mutating a stored field of entry
`k` — its hashed content, its `previous_hash`, or its `entry_hash` —
makes `verify_chain` report `(false, k)`, the index of the first invalid
entry (collision-freedom of the digest is taken as injectivity of the
hash function). -/
theorem ledger_chain_spec {Hash : Type} [DecidableEq Hash]
    (hashFn : EntryContent Hash → Hash) (g : Hash) (cap : ℕ)
    (inputs : List (String × SignedTransaction × Option GateDecision))
    (L : Ledger Hash) (k : ℕ) (e2 : LedgerEntry Hash) :
    (inputs.length ≤ cap →
      ∃ L2, appendMany hashFn ⟨[], g, cap⟩ inputs = .ok L2 ∧
        L2.entries.length = inputs.length ∧
        L2.verify_chain hashFn = (true, none)) ∧
    (Function.Injective hashFn →
      L.verify_chain hashFn = (true, none) →
      ∀ hk : k < L.entries.length, Tampered (L.entries.get ⟨k, hk⟩) e2 →
        Ledger.verify_chain hashFn { L with entries := L.entries.set k e2 } =
          (false, some k)) := by
  constructor
  · intro hcap
    obtain ⟨L2, h1, h2, h3, h4⟩ := appendMany_ok hashFn inputs ⟨[], g, cap⟩
      (by simpa) trivial
    refine ⟨L2, h1, by simpa using h2, ?_⟩
    rw [Ledger.verify_chain, verifyFrom_eq_true_iff]
    exact h4
  · intro hinj hver hk ht
    rw [Ledger.verify_chain, verifyFrom_eq_true_iff] at hver
    have h := verifyFrom_set_tampered hashFn hinj L.genesis_hash 0 k L.entries
      e2 hver hk ht
    rw [Ledger.verify_chain]
    simpa using h

end MoneyIfx

namespace MoneyIfx

open MoneyCore

/-- The concrete constructor-tree hash is injective. -/
theorem hashFnT_injective : Function.Injective hashFnT := by
  intro a b h
  cases a
  cases b
  simp only [hashFnT, HashT.node.injEq] at h
  simp_all

/-- Witness for C4: one append verifies, and corrupting the stored
transaction of entry 1 of the concrete two-entry ledger is reported at
index 1. -/
theorem ledger_chain_spec_witness :
    (∃ L2, appendMany hashFnT (⟨[], HashT.genesis, 10⟩ : Ledger HashT)
        [("t0", txSample, (none : Option GateDecision))] = .ok L2 ∧
      L2.entries.length =
        [("t0", txSample, (none : Option GateDecision))].length ∧
      L2.verify_chain hashFnT = (true, none)) ∧
    Ledger.verify_chain hashFnT
      { ledgerSample with entries := ledgerSample.entries.set 1 entrySample1Bad } =
      (false, some 1) :=
  ⟨(ledger_chain_spec hashFnT HashT.genesis 10
      [("t0", txSample, (none : Option GateDecision))] ledgerSample 1
      entrySample1Bad).1 (by decide),
   (ledger_chain_spec hashFnT HashT.genesis 10
      [("t0", txSample, (none : Option GateDecision))] ledgerSample 1
      entrySample1Bad).2 hashFnT_injective (by decide) (by decide)
      (by unfold Tampered; exact Or.inl (by decide))⟩

end MoneyIfx
